import Mathlib

/-!
Verification of the miniprolog engine (`src/kb_agents/miniprolog/`).

This file shallowly embeds the engine's data model and operations in Lean and
proves or refutes the frozen specification claims about them.  Each Python
function is translated into an executable Lean definition; functions whose
Python originals can diverge (substitution application through cyclic
bindings, SLD resolution) take an explicit fuel argument and return `none`
when the fuel runs out, so that `none` for every fuel corresponds to
divergence of the original.
-/

set_option maxRecDepth 4000

namespace MiniProlog

/-! ## Terms (`syntax.py`)

The Python classes `Const`, `NumericConst`, `AtomConst`, `StringConst`,
`Var` and `Predicate` become constructors of one inductive type.  Pydantic
equality of these models compares the runtime class together with all fields,
which matches constructor equality here.  `NumericConst.value` is derived
from `name` by `model_post_init` and carries no extra information, so only
the name is stored.
-/

inductive Term where
  | const (name : String)
  | numericConst (name : String)
  | atomConst (name : String)
  | stringConst (name : String)
  | var (name : String)
  | predicate (name : String) (args : List Term)

mutual

def Term.decEq : (a b : Term) → Decidable (a = b)
  | .const x, .const y =>
      if h : x = y then .isTrue (h ▸ rfl)
      else .isFalse (fun e => h (Term.const.inj e))
  | .numericConst x, .numericConst y =>
      if h : x = y then .isTrue (h ▸ rfl)
      else .isFalse (fun e => h (Term.numericConst.inj e))
  | .atomConst x, .atomConst y =>
      if h : x = y then .isTrue (h ▸ rfl)
      else .isFalse (fun e => h (Term.atomConst.inj e))
  | .stringConst x, .stringConst y =>
      if h : x = y then .isTrue (h ▸ rfl)
      else .isFalse (fun e => h (Term.stringConst.inj e))
  | .var x, .var y =>
      if h : x = y then .isTrue (h ▸ rfl)
      else .isFalse (fun e => h (Term.var.inj e))
  | .predicate n1 a1, .predicate n2 a2 =>
      match String.decEq n1 n2, Term.decEqList a1 a2 with
      | .isTrue h1, .isTrue h2 => .isTrue (by rw [h1, h2])
      | .isFalse h1, _ => .isFalse (fun e => h1 (Term.predicate.inj e).1)
      | _, .isFalse h2 => .isFalse (fun e => h2 (Term.predicate.inj e).2)
  | .const _, .numericConst _ => .isFalse (fun e => Term.noConfusion e)
  | .const _, .atomConst _ => .isFalse (fun e => Term.noConfusion e)
  | .const _, .stringConst _ => .isFalse (fun e => Term.noConfusion e)
  | .const _, .var _ => .isFalse (fun e => Term.noConfusion e)
  | .const _, .predicate _ _ => .isFalse (fun e => Term.noConfusion e)
  | .numericConst _, .const _ => .isFalse (fun e => Term.noConfusion e)
  | .numericConst _, .atomConst _ => .isFalse (fun e => Term.noConfusion e)
  | .numericConst _, .stringConst _ => .isFalse (fun e => Term.noConfusion e)
  | .numericConst _, .var _ => .isFalse (fun e => Term.noConfusion e)
  | .numericConst _, .predicate _ _ => .isFalse (fun e => Term.noConfusion e)
  | .atomConst _, .const _ => .isFalse (fun e => Term.noConfusion e)
  | .atomConst _, .numericConst _ => .isFalse (fun e => Term.noConfusion e)
  | .atomConst _, .stringConst _ => .isFalse (fun e => Term.noConfusion e)
  | .atomConst _, .var _ => .isFalse (fun e => Term.noConfusion e)
  | .atomConst _, .predicate _ _ => .isFalse (fun e => Term.noConfusion e)
  | .stringConst _, .const _ => .isFalse (fun e => Term.noConfusion e)
  | .stringConst _, .numericConst _ => .isFalse (fun e => Term.noConfusion e)
  | .stringConst _, .atomConst _ => .isFalse (fun e => Term.noConfusion e)
  | .stringConst _, .var _ => .isFalse (fun e => Term.noConfusion e)
  | .stringConst _, .predicate _ _ => .isFalse (fun e => Term.noConfusion e)
  | .var _, .const _ => .isFalse (fun e => Term.noConfusion e)
  | .var _, .numericConst _ => .isFalse (fun e => Term.noConfusion e)
  | .var _, .atomConst _ => .isFalse (fun e => Term.noConfusion e)
  | .var _, .stringConst _ => .isFalse (fun e => Term.noConfusion e)
  | .var _, .predicate _ _ => .isFalse (fun e => Term.noConfusion e)
  | .predicate _ _, .const _ => .isFalse (fun e => Term.noConfusion e)
  | .predicate _ _, .numericConst _ => .isFalse (fun e => Term.noConfusion e)
  | .predicate _ _, .atomConst _ => .isFalse (fun e => Term.noConfusion e)
  | .predicate _ _, .stringConst _ => .isFalse (fun e => Term.noConfusion e)
  | .predicate _ _, .var _ => .isFalse (fun e => Term.noConfusion e)

def Term.decEqList : (as bs : List Term) → Decidable (as = bs)
  | [], [] => .isTrue rfl
  | [], _ :: _ => .isFalse (fun e => List.noConfusion e)
  | _ :: _, [] => .isFalse (fun e => List.noConfusion e)
  | a :: as, b :: bs =>
      match Term.decEq a b, Term.decEqList as bs with
      | .isTrue h1, .isTrue h2 => .isTrue (by rw [h1, h2])
      | .isFalse h1, _ => .isFalse (fun e => h1 (List.cons.inj e).1)
      | _, .isFalse h2 => .isFalse (fun e => h2 (List.cons.inj e).2)

end

instance : DecidableEq Term := Term.decEq

/-- `name` attribute shared by every term class. -/
def Term.name : Term → String
  | .const n => n
  | .numericConst n => n
  | .atomConst n => n
  | .stringConst n => n
  | .var n => n
  | .predicate n _ => n

/-- `isinstance(t, Const)`: true for the whole constant family. -/
def Term.isConst : Term → Bool
  | .const _ | .numericConst _ | .atomConst _ | .stringConst _ => true
  | _ => false

/-- `isinstance(t, Var)`. -/
def Term.isVar : Term → Bool
  | .var _ => true
  | _ => false

/-- `isinstance(t, Predicate)`. -/
def Term.isPred : Term → Bool
  | .predicate _ _ => true
  | _ => false

/-- `isinstance(t, NumericConst)`. -/
def Term.isNumericConst : Term → Bool
  | .numericConst _ => true
  | _ => false

/-- `is_numeric` as defined in `syntax.py`: the base class `Const` returns
`False` unconditionally (lines 19-20); only `NumericConst` overrides it to
`True`.  `Var` and `Predicate` have no such method; the source only calls it
behind `isinstance(…, Const)` guards, so the value on those constructors is
irrelevant (`false` here). -/
def Term.is_numeric : Term → Bool
  | .numericConst _ => true
  | _ => false

/-- `Predicate.args` (`[]` on non-predicates, which have no such attribute;
the source accesses `args` only behind `isinstance`/`hasattr` guards). -/
def Term.args : Term → List Term
  | .predicate _ a => a
  | _ => []

/-- A `Rule` from `syntax.py`: `head: Predicate`, `body: list[Predicate]`.
The head and body elements are predicates by construction in the source; the
embedding stores them as `Term` and all constructors in this file only ever
place `Term.predicate` values there. -/
structure Rule where
  head : Term
  body : List Term
deriving DecidableEq

/-! ## Substitutions (`subst.py`)

A Python `Subst` wraps an insertion-ordered `dict[Var, Term]`.  `Var` hashes
and compares by name, so the embedding keys the map by the variable name and
keeps insertion order as an association list.  `dict[k] = v` updates an
existing key in place (keeping its position) and appends a fresh key at the
end. -/

structure Subst where
  mapping : List (String × Term)
deriving DecidableEq

def Subst.lookup (s : Subst) (v : String) : Option Term :=
  s.mapping.lookup v

/-- Python `dict` assignment: overwrite in place or append. -/
def dictInsert (m : List (String × Term)) (k : String) (t : Term) :
    List (String × Term) :=
  match m with
  | [] => [(k, t)]
  | (k', t') :: rest =>
      if k' = k then (k', t) :: rest else (k', t') :: dictInsert rest k t

/-- `Subst.extend`: `self.mapping[var] = term`. -/
def Subst.extend (s : Subst) (v : String) (t : Term) : Subst :=
  ⟨dictInsert s.mapping v t⟩

def emptySubst : Subst := ⟨[]⟩

/-- `Subst.apply` with fuel.  The Python method recurses through the image of
a bound variable and through predicate arguments; on a cyclic binding it
diverges, which the embedding reports as `none` (for every fuel). -/
def applyF : Nat → Subst → Term → Option Term
  | 0, _, _ => none
  | n + 1, s, t =>
      match t with
      | .var v =>
          match s.lookup v with
          | some img => applyF n s img
          | none => some (.var v)
      | .predicate nm as => do
          let as' ← as.mapM (applyF n s)
          pure (.predicate nm as')
      | c => some c

/-! ## Unification (`unify.py`)

`unify` first applies the substitution to both terms, then matches.  Note two
places where the source discards the incoming substitution: `unify_constants`
returns a fresh empty `Subst` on success, and `unify_predicates` folds the
argument unifications starting from a fresh empty `Subst`.  The embedding
reproduces both.  The Python functions mutate the `Subst` they were handed
and return it; every caller that must not be affected passes a copy, so the
pure reading (return the extended substitution) is equivalent.

Results are doubly optional: the outer `Option` is fuel exhaustion
(divergence of the source through `apply`), the inner `Option` is the
source's `None` (unification failure). -/

def unify_constants (c1 c2 : Term) : Option Subst :=
  if c1.name = c2.name then some emptySubst else none

mutual

def unifyF : Nat → Term → Term → Option Subst → Option (Option Subst)
  | 0, _, _, _ => none
  | n + 1, x, y, s =>
      match s with
      | none => some none
      | some s => do
          let x' ← applyF (n + 1) s x
          let y' ← applyF (n + 1) s y
          match x', y' with
          | .var v, _ =>
              if Term.var v = y' then some (some s)
              else some (some (s.extend v y'))
          | _, .var v => unifyF n (.var v) x' (some s)
          | .predicate p1 as1, .predicate p2 as2 =>
              if p1 = p2 ∧ as1.length = as2.length then
                unifyListF n (as1.zip as2) emptySubst
              else some none
          | c1, c2 =>
              if c1.isConst ∧ c2.isConst then some (unify_constants c1 c2)
              else some none

/-- The fold inside `unify_predicates`. -/
def unifyListF : Nat → List (Term × Term) → Subst → Option (Option Subst)
  | 0, _, _ => none
  | _ + 1, [], s => some (some s)
  | n + 1, (a, b) :: rest, s => do
      let r ← unifyF n a b (some s)
      match r with
      | none => some none
      | some s' => unifyListF n rest s'

end

/-! ## Textual representation (`__str__` in `syntax.py`) -/

mutual

/-- `__str__`: the name for constants and variables (`StringConst` adds double
quotes), `name(a1, …, an)` for predicates with arguments, bare `name` for
arity 0. -/
def strTerm : Term → String
  | .const n => n
  | .numericConst n => n
  | .atomConst n => n
  | .stringConst n => "\"" ++ n ++ "\""
  | .var n => n
  | .predicate n as =>
      match as with
      | [] => n
      | _ => n ++ "(" ++ String.intercalate ", " (strTermList as) ++ ")"

def strTermList : List Term → List String
  | [] => []
  | t :: ts => strTerm t :: strTermList ts

end

/-- `Rule.__str__`: `head.` when the body is empty, else `head :- b1, …, bm.` -/
def strRule (r : Rule) : String :=
  match r.body with
  | [] => strTerm r.head ++ "."
  | _ =>
      strTerm r.head ++ " :- " ++
        String.intercalate ", " (strTermList r.body) ++ "."

/-! ## Renaming (`renaming.py`) -/

mutual

/-- Variable-name occurrences of a term, in depth-first left-to-right order
(with duplicates). -/
def varOccsT : Term → List String
  | .var v => [v]
  | .predicate _ as => varOccsList as
  | _ => []

def varOccsList : List Term → List String
  | [] => []
  | t :: ts => varOccsT t ++ varOccsList ts

end

/-- First-occurrence deduplication.  `rename_rule` collects variable names
into a Python `set`, whose iteration order is unspecified; the embedding
fixes the first-occurrence order (head first, then body).  Only the numeric
suffix attached to each name depends on this order; no property proved below
depends on which fresh number a given variable receives. -/
def dedupFirst (l : List String) : List String :=
  l.foldl (fun acc x => if x ∈ acc then acc else acc ++ [x]) []

mutual

/-- `rename_vars_in_term` given the name mapping (`var_mapping.get(name,
name)` falls back to the unrenamed name). -/
def renameMapped (m : List (String × String)) : Term → Term
  | .var v =>
      match m.lookup v with
      | some v' => .var v'
      | none => .var v
  | .predicate n as => .predicate n (renameMappedList m as)
  | t => t

/-- `rename_vars_in_term` mapped over a list of terms. -/
def renameMappedList (m : List (String × String)) : List Term → List Term
  | [] => []
  | t :: ts => renameMapped m t :: renameMappedList m ts

end

/-- The consistent mapping built inside `rename_rule`: each collected name
`v` is sent to `v ++ "_" ++ counter`, with the counter incremented once per
name. -/
def renameMapping : List String → Nat → List (String × String)
  | [], _ => []
  | v :: vs, k => (v, v ++ "_" ++ toString k) :: renameMapping vs (k + 1)

/-- `rename_rule`: rename all variables of a rule consistently (one shared
mapping for head and body) and return the advanced counter. -/
def rename_rule (r : Rule) (counter : Nat) : Rule × Nat :=
  let names := dedupFirst (varOccsT r.head ++ varOccsList r.body)
  let m := renameMapping names counter
  (⟨renameMapped m r.head, renameMappedList m r.body⟩,
    counter + names.length)

/-! ## Knowledge base (`kb.py`) -/

structure KB where
  rules : List Rule
deriving DecidableEq

/-- `KB.get_rules_for_predicate`: all rules whose head matches the goal by
name and arity. -/
def KB.get_rules_for_predicate (kb : KB) (p : Term) : List Rule :=
  kb.rules.filter fun r =>
    r.head.name = p.name ∧ r.head.args.length = p.args.length

/-! ## Arithmetic constraints (`arith.py`)

Python computes with IEEE doubles; the embedding uses exact rationals.  The
numeric literals reaching these functions are decimal strings of modest size,
for which the two agree on every comparison made here.
-/

/-- Python computes with IEEE doubles; the embedding uses exact decimal
numbers `num / 10 ^ exp` (the numerals of this system are decimal literals,
for which the comparisons made here agree with the float ones).  A dedicated
representation rather than `ℚ` keeps every operation structural, hence
kernel-computable. -/
structure DecNum where
  num : Int
  exp : Nat
deriving DecidableEq

def pow10 : Nat → Int
  | 0 => 1
  | n + 1 => 10 * pow10 n

def digitsVal (l : List Char) : Nat :=
  l.foldl (fun a c => a * 10 + (c.toNat - 48)) 0

/-- Numeric value of a numeric constant's name: optional `-` sign, integer
digits, optional `.` and fraction digits (the forms produced by the parser's
`NUMBER` token and by `str(int)` in the built-ins). -/
def decOfNumString (s : String) : DecNum :=
  let cs := s.toList
  let (neg, cs) :=
    match cs with
    | '-' :: r => (true, r)
    | _ => (false, cs)
  let intPart := cs.takeWhile Char.isDigit
  let rest := cs.dropWhile Char.isDigit
  let frac :=
    match rest with
    | '.' :: f => f.takeWhile Char.isDigit
    | _ => []
  let n : Int := (digitsVal (intPart ++ frac) : Int)
  ⟨if neg then -n else n, frac.length⟩

/-- `numeric_value`: defined for `NumericConst` (parse of `name`); the base
class raises, and the source only calls it behind `is_numeric`/`isinstance`
guards, so the value elsewhere (0) is never observed. -/
def Term.numeric_value : Term → DecNum
  | .numericConst n => decOfNumString n
  | _ => ⟨0, 0⟩

def intAbs (n : Int) : Int :=
  if n < 0 then -n else n

/-- `a < b` on exact decimals (cross-multiplied). -/
def decLtB (a b : DecNum) : Bool :=
  a.num * pow10 b.exp < b.num * pow10 a.exp

/-- `a ≤ b` on exact decimals. -/
def decLeB (a b : DecNum) : Bool :=
  a.num * pow10 b.exp ≤ b.num * pow10 a.exp

/-- `a = b` exactly. -/
def decEqB (a b : DecNum) : Bool :=
  a.num * pow10 b.exp = b.num * pow10 a.exp

/-- `abs(a - b) < 1e-6`, the equality tolerance used by
`ArithmeticConstraint.evaluate`. -/
def decEqTolB (a b : DecNum) : Bool :=
  intAbs (a.num * pow10 b.exp - b.num * pow10 a.exp) * 1000000 <
    pow10 (a.exp + b.exp)

/-- Floor of an exact decimal. -/
def decFloor (d : DecNum) : Int :=
  Int.fdiv d.num (pow10 d.exp)

/-- Python `int(x)` on a float: truncation toward zero. -/
def decTrunc (d : DecNum) : Int :=
  if 0 ≤ d.num then Int.fdiv d.num (pow10 d.exp)
  else -(Int.fdiv (-d.num) (pow10 d.exp))

/-- `is_arithmetic_constraint` on `Predicate` (`syntax.py` lines 88-92). -/
def isArithmeticConstraint (t : Term) : Bool :=
  match t with
  | .predicate n as =>
      (n ∈ ["=", "!=", "<", "=<", "<=", ">", ">=", "\\=", "+", "*", "-", "/", "mod"])
        ∧ as.length = 2
  | _ => false

structure ArithmeticConstraint where
  op : String
  left : Term
  right : Term
deriving DecidableEq

/-- `ArithmeticConstraint.evaluate`: walk both sides through the
substitution; both must be numeric constants, otherwise `False`.  Equality
uses the absolute-difference tolerance `1e-6`; every other recognized
operator compares exactly; unrecognized operators give `False`. -/
def ArithmeticConstraint.evaluate (fuel : Nat) (c : ArithmeticConstraint)
    (s : Subst) : Option Bool := do
  let l ← applyF fuel s c.left
  let r ← applyF fuel s c.right
  if l.isConst ∧ r.isConst then
    if l.is_numeric ∧ r.is_numeric then
      let lv := l.numeric_value
      let rv := r.numeric_value
      pure <|
        match c.op with
        | "=" => decEqTolB lv rv
        | "!=" => ¬ decEqB lv rv
        | "<" => decLtB lv rv
        | "<=" => decLeB lv rv
        | ">" => decLtB rv lv
        | ">=" => decLeB rv lv
        | _ => false
    else pure false
  else pure false

structure ConstraintStore where
  constraints : List ArithmeticConstraint
deriving DecidableEq

def emptyStore : ConstraintStore := ⟨[]⟩

/-- `ConstraintStore.is_satisfied`: conjunction over the stored constraints
(`all(...)` short-circuits at the first `False`). -/
def isSatisfiedF (fuel : Nat) : List ArithmeticConstraint → Subst → Option Bool
  | [], _ => some true
  | c :: rest, s => do
      let b ← c.evaluate fuel s
      if b then isSatisfiedF fuel rest s else pure false

def ConstraintStore.is_satisfied (fuel : Nat) (st : ConstraintStore)
    (s : Subst) : Option Bool :=
  isSatisfiedF fuel st.constraints s

/-- The allow-list `Op` in `arith.py` (note: it contains `<=` but not `=<`,
and not `\\=`). -/
def opList : List String :=
  ["=", "!=", "<", "<=", ">", ">=", "+", "*", "-", "/", "mod"]

/-- `predicate_to_constraint`: a constraint when the goal satisfies
`is_arithmetic_constraint` and its name is in `Op`, else `None`. -/
def predicate_to_constraint (t : Term) : Option ArithmeticConstraint :=
  if isArithmeticConstraint t ∧ t.name ∈ opList then
    match t with
    | .predicate n [l, r] => some ⟨n, l, r⟩
    | _ => none
  else none

/-! ## Built-ins (`builtins.py`)

The date/time built-ins delegate to Python's `datetime` (proleptic Gregorian
calendar, years 1..9999, UTC).  The embedding implements the same calendar
arithmetic; `get_time`/`current_time` read the system clock, which the
embedding models as an explicit `now : Int` parameter threaded through
resolution (no claim below depends on its value). -/

def isLeap (y : Int) : Bool :=
  y.emod 4 = 0 ∧ (y.emod 100 ≠ 0 ∨ y.emod 400 = 0)

def daysInMonth (y m : Int) : Int :=
  if m = 2 then (if isLeap y then 29 else 28)
  else if m ∈ ([4, 6, 9, 11] : List Int) then 30
  else 31

/-- `datetime(year, month, day, hour, minute, second)` validation: raises
`ValueError` (caught by the built-ins) outside these ranges. -/
def validDate (y m d : Int) : Bool :=
  1 ≤ y ∧ y ≤ 9999 ∧ 1 ≤ m ∧ m ≤ 12 ∧ 1 ≤ d ∧ d ≤ daysInMonth y m

def validTime (h mi s : Int) : Bool :=
  0 ≤ h ∧ h ≤ 23 ∧ 0 ≤ mi ∧ mi ≤ 59 ∧ 0 ≤ s ∧ s ≤ 59

/-- Days from 1970-01-01 of a Gregorian date (standard civil-calendar
conversion). -/
def daysFromCivil (y m d : Int) : Int :=
  let y' := if m ≤ 2 then y - 1 else y
  let era := y'.fdiv 400
  let yoe := y' - era * 400
  let mp := if 2 < m then m - 3 else m + 9
  let doy := (153 * mp + 2).fdiv 5 + d - 1
  let doe := yoe * 365 + yoe.fdiv 4 - yoe.fdiv 100 + doy
  era * 146097 + doe - 719468

/-- Gregorian date of a day count from 1970-01-01 (inverse of
`daysFromCivil`). -/
def civilFromDays (z : Int) : Int × Int × Int :=
  let z' := z + 719468
  let era := z'.fdiv 146097
  let doe := z' - era * 146097
  let yoe := (doe - doe.fdiv 1460 + doe.fdiv 36524 - doe.fdiv 146096).fdiv 365
  let doy := doe - (365 * yoe + yoe.fdiv 4 - yoe.fdiv 100)
  let mp := (5 * doy + 2).fdiv 153
  let d := doy - (153 * mp + 2).fdiv 5 + 1
  let m := if mp < 10 then mp + 3 else mp - 9
  let y := yoe + era * 400 + (if m ≤ 2 then 1 else 0)
  (y, m, d)

/-- ISO weekday (1 = Monday .. 7 = Sunday) of a day count from 1970-01-01
(which was a Thursday). -/
def isoWeekdayOfDays (days : Int) : Int :=
  (days + 3).emod 7 + 1

def builtinNames : List String :=
  ["date_time_stamp", "stamp_date_time", "get_time", "format_time",
   "current_time", "weekday"]

/-- `is_builtin`: recognized by functor name only (arity is not checked
here). -/
def is_builtin (t : Term) : Bool :=
  t.name ∈ builtinNames

/-- `_date_time_stamp`: `date_time_stamp(+DateTime, -TimeStamp)` where
`DateTime` is a `date(Y,M,D,H,Mi,S,…)` compound with at least six numeric
components; produces integer seconds since the epoch and unifies them with
the second argument.  Any failure contributes no solution. -/
def dateTimeStampB (fuel : Nat) (g : Term) (s : Subst) :
    Option (List Subst) := do
  match g.args with
  | [a0, a1] =>
      let date_term ← applyF fuel s a0
      let timestamp_term ← applyF fuel s a1
      match date_term with
      | .predicate "date" das =>
          if 6 ≤ das.length then do
            let comps ← (das.take 6).mapM (applyF fuel s)
            if comps.all Term.isNumericConst then
              let vals := comps.map fun c => decTrunc c.numeric_value
              match vals with
              | [y, mo, d, h, mi, sec] =>
                  if validDate y mo d ∧ validTime h mi sec then do
                    let ts := daysFromCivil y mo d * 86400 + h * 3600 +
                      mi * 60 + sec
                    let u ← unifyF fuel timestamp_term
                      (.numericConst (toString ts)) (some s)
                    match u with
                    | some s' => pure [s']
                    | none => pure []
                  else pure []
              | _ => pure []
            else pure []
          else pure []
      | _ => pure []
  | _ => pure []

/-- `_stamp_date_time`: `stamp_date_time(+TimeStamp, -DateTime, +TZ)`;
converts the (floor of the) numeric timestamp to a UTC
`date(Y,M,D,H,Mi,S,WeekDay,YearDay,0)` compound and unifies it with the
second argument.  Timestamps outside years 1..9999 raise in Python and are
caught, contributing no solution. -/
def stampDateTimeB (fuel : Nat) (g : Term) (s : Subst) :
    Option (List Subst) := do
  match g.args with
  | [a0, a1, _] =>
      let timestamp_term ← applyF fuel s a0
      let datetime_term ← applyF fuel s a1
      if timestamp_term.isNumericConst then
        let sec : Int := decFloor timestamp_term.numeric_value
        let days := sec.fdiv 86400
        let sod := sec.emod 86400
        let (y, mo, d) := civilFromDays days
        if 1 ≤ y ∧ y ≤ 9999 then do
          let yday := days - daysFromCivil y 1 1 + 1
          let dateStruct : Term := .predicate "date"
            [.numericConst (toString y), .numericConst (toString mo),
             .numericConst (toString d),
             .numericConst (toString (sod.fdiv 3600)),
             .numericConst (toString ((sod.emod 3600).fdiv 60)),
             .numericConst (toString (sod.emod 60)),
             .numericConst (toString (isoWeekdayOfDays days)),
             .numericConst (toString yday), .numericConst "0"]
          let u ← unifyF fuel datetime_term dateStruct (some s)
          match u with
          | some s' => pure [s']
          | none => pure []
        else pure []
      else pure []
  | _ => pure []

/-- `_get_time` (also `_current_time`): unify the single argument with the
current integer timestamp. -/
def getTimeB (fuel : Nat) (now : Int) (g : Term) (s : Subst) :
    Option (List Subst) := do
  match g.args with
  | [a0] =>
      let timestamp_term ← applyF fuel s a0
      let u ← unifyF fuel timestamp_term (.numericConst (toString now))
        (some s)
      match u with
      | some s' => pure [s']
      | none => pure []
  | _ => pure []

/-- `_weekday`: `weekday(+Y, +M, +D, -W)` with numeric inputs; unifies `W`
with the ISO weekday, failing on invalid dates. -/
def weekdayB (fuel : Nat) (g : Term) (s : Subst) : Option (List Subst) := do
  match g.args with
  | [a0, a1, a2, a3] =>
      let year_term ← applyF fuel s a0
      let month_term ← applyF fuel s a1
      let day_term ← applyF fuel s a2
      let weekday_term ← applyF fuel s a3
      if year_term.isNumericConst ∧ month_term.isNumericConst ∧
          day_term.isNumericConst then
        let y := decTrunc year_term.numeric_value
        let mo := decTrunc month_term.numeric_value
        let d := decTrunc day_term.numeric_value
        if validDate y mo d then do
          let w := isoWeekdayOfDays (daysFromCivil y mo d)
          let u ← unifyF fuel weekday_term (.numericConst (toString w))
            (some s)
          match u with
          | some s' => pure [s']
          | none => pure []
        else pure []
      else pure []
  | _ => pure []

/-- `evaluate_builtin`: dispatch on the functor name; names in the built-in
set without an implementation branch (`format_time`) fall through to the
final `else` and produce no solutions. -/
def evaluate_builtin (fuel : Nat) (now : Int) (g : Term) (s : Subst) :
    Option (List Subst) :=
  if g.name = "date_time_stamp" then dateTimeStampB fuel g s
  else if g.name = "stamp_date_time" then stampDateTimeB fuel g s
  else if g.name = "get_time" then getTimeB fuel now g s
  else if g.name = "current_time" then getTimeB fuel now g s
  else if g.name = "weekday" then weekdayB fuel g s
  else some []

/-! ## SLD resolution (`sld.py`)

`sld_resolution` dispatches the first goal: negation-as-failure, then
built-ins, then arithmetic constraints (posted to a functionally extended
store), then ordinary rule search.  `search_solutions` renames each matching
rule, unifies against a copy of the current substitution, recurses on the
instantiated `body ++ rest` — note that it passes *no constraint store* to
the recursive `sld_resolution` call (source line 100), so the store in
effect at an ordinary goal is discarded — and composes the returned
substitution with the unified one.

The functions are fueled; `none` means the bound was exhausted (the source
can diverge on left-recursive programs). -/

/-- The substitution composition at the end of `search_solutions`: apply the
recursive substitution to every image of the unified one, then append the
recursive bindings for variables not already present. -/
def composeF (fuel : Nat) (new_subst rec_subst : Subst) : Option Subst := do
  let updated ← new_subst.mapping.mapM fun p => do
    let t' ← applyF fuel rec_subst p.2
    pure (p.1, t')
  let keys := new_subst.mapping.map Prod.fst
  pure ⟨updated ++ rec_subst.mapping.filter fun p => ¬ keys.contains p.1⟩

mutual

def sldF (now : Int) (fuel : Nat) (kb : KB) (goals : List Term)
    (subst? : Option Subst) (counter : Nat)
    (constraints? : Option ConstraintStore) :
    Option (List (Subst × ConstraintStore)) :=
  match fuel with
  | 0 => none
  | n + 1 =>
      match subst? with
      | none => some []
      | some subst =>
          let constraints := constraints?.getD emptyStore
          match goals with
          | [] => do
              let ok ← constraints.is_satisfied (n + 1) subst
              pure (if ok then [(subst, constraints)] else [])
          | first :: rest =>
              if first.name = "\\+" ∧ first.args.length = 1 then
                negationF now n kb first rest subst counter constraints
              else if is_builtin first then do
                let bs ← evaluate_builtin (n + 1) now first subst
                let rss ← bs.mapM fun b =>
                  sldF now n kb rest (some b) counter (some constraints)
                pure rss.flatten
              else
                match predicate_to_constraint first with
                | some c =>
                    sldF now n kb rest (some subst) counter
                      (some ⟨constraints.constraints ++ [c]⟩)
                | none =>
                    searchRulesF now n kb first rest subst counter
                      (kb.get_rules_for_predicate first)

/-- The rule loop of `search_solutions` (the constraint store is *not*
passed to the recursive `sld_resolution` call, mirroring the source).  The
fuel strictly decreases at every recursive call — including once per rule
alternative — keeping the definition kernel-computable; fuel is only an
upper-bound artifact of the embedding. -/
def searchRulesF (now : Int) (fuel : Nat) (kb : KB) (first : Term)
    (rest : List Term) (subst : Subst) (counter : Nat)
    (rules : List Rule) : Option (List (Subst × ConstraintStore)) :=
  match fuel with
  | 0 => none
  | n + 1 =>
      match rules with
      | [] => some []
      | rule :: more => do
          let (renamed, new_counter) := rename_rule rule counter
          let u ← unifyF (n + 1) first renamed.head (some ⟨subst.mapping⟩)
          let sols ←
            match u with
            | none => pure []
            | some new_subst => do
                let applied ← (renamed.body ++ rest).mapM
                  (applyF (n + 1) new_subst)
                let new_goals := applied.filter Term.isPred
                let rec_sols ← sldF now n kb new_goals (some new_subst)
                  new_counter none
                rec_sols.mapM fun rc => do
                  let comp ← composeF (n + 1) new_subst rc.1
                  pure (comp, rc.2)
          let moreSols ← searchRulesF now n kb first rest subst counter more
          pure (sols ++ moreSols)

/-- `negation_as_failure`: prove the apply-instantiated inner goal from a
fresh empty substitution (inheriting the store); continue with the original
substitution only when that probe has no solutions. -/
def negationF (now : Int) (fuel : Nat) (kb : KB) (first : Term)
    (rest : List Term) (subst : Subst) (counter : Nat)
    (constraints : ConstraintStore) :
    Option (List (Subst × ConstraintStore)) :=
  match fuel with
  | 0 => none
  | n + 1 =>
      match first.args with
      | [negated_goal] =>
          if negated_goal.isPred then do
            let instantiated ← applyF (n + 1) subst negated_goal
            if instantiated.isPred then do
              let probe ← sldF now n kb [instantiated] (some emptySubst)
                counter (some constraints)
              if probe.isEmpty then
                sldF now n kb rest (some subst) counter (some constraints)
              else pure []
            else pure []
          else pure []
      | _ => pure []

end

/-- Module-level `sld_resolution` as called by `Miniprolog.query`: empty
initial substitution, counter 0, no initial store. -/
def sld_resolution (now : Int) (fuel : Nat) (kb : KB) (goals : List Term) :
    Option (List (Subst × ConstraintStore)) :=
  sldF now fuel kb goals (some emptySubst) 0 none

/-! ## Parser (`parser.py`)

The source parses with a Lark LALR grammar.  The embedding implements a
lexer for the grammar's terminals (`NAME`, `VARIABLE`, `NUMBER`, the
operators, punctuation, `%` comments, whitespace) and a recursive-descent
parser accepting the grammar's language, building the same trees the
`PrologTransformer` builds — in particular the `number` and `atom`
transformer methods construct *base-class* `Const` terms.  Parse failures
raise Lark exceptions that carry the input position; `ParseError` models
them with a character position. -/

structure ParseError where
  pos : Nat
  msg : String
deriving DecidableEq

inductive Tok where
  | tName (s : String)
  | tVar (s : String)
  | tNum (s : String)
  | tLParen
  | tRParen
  | tComma
  | tDot
  | tIf
  | tNeg
  | tOp (s : String)
deriving DecidableEq

def isIdentChar (c : Char) : Bool :=
  c.isAlpha ∨ c.isDigit ∨ c = '_'

def isLowerAlpha (c : Char) : Bool :=
  'a' ≤ c ∧ c ≤ 'z'

def isUpperAlpha (c : Char) : Bool :=
  'A' ≤ c ∧ c ≤ 'Z'

/-- One lexing step per fuel unit; fuel `chars.length + 1` always suffices
since every token or skipped run consumes at least one character. -/
def lexF : Nat → List Char → Nat → Except ParseError (List (Tok × Nat))
  | 0, _, pos => .error ⟨pos, "lexer fuel exhausted"⟩
  | _ + 1, [], _ => .ok []
  | n + 1, c :: cs, pos =>
      if c.isWhitespace then lexF n cs (pos + 1)
      else if c = '%' then
        let rest := (c :: cs).dropWhile (fun ch => ch ≠ '\n')
        lexF n rest (pos + ((c :: cs).length - rest.length))
      else if isLowerAlpha c then
        let run := cs.takeWhile isIdentChar
        let tok := Tok.tName (String.mk (c :: run))
        (lexF n (cs.drop run.length) (pos + 1 + run.length)).map
          fun ts => (tok, pos) :: ts
      else if isUpperAlpha c ∨ c = '_' then
        let run := cs.takeWhile isIdentChar
        let tok := Tok.tVar (String.mk (c :: run))
        (lexF n (cs.drop run.length) (pos + 1 + run.length)).map
          fun ts => (tok, pos) :: ts
      else if c.isDigit then
        let intRun := cs.takeWhile Char.isDigit
        let afterInt := cs.drop intRun.length
        match afterInt with
        | '.' :: d :: ds =>
            if d.isDigit then
              let fracRun := (d :: ds).takeWhile Char.isDigit
              let tok := Tok.tNum
                (String.mk ((c :: intRun) ++ '.' :: fracRun))
              let used := 1 + intRun.length + 1 + fracRun.length
              (lexF n ((d :: ds).drop fracRun.length) (pos + used)).map
                fun ts => (tok, pos) :: ts
            else
              (lexF n afterInt (pos + 1 + intRun.length)).map
                fun ts => (Tok.tNum (String.mk (c :: intRun)), pos) :: ts
        | _ =>
            (lexF n afterInt (pos + 1 + intRun.length)).map
              fun ts => (Tok.tNum (String.mk (c :: intRun)), pos) :: ts
      else if c = '(' then
        (lexF n cs (pos + 1)).map fun ts => (Tok.tLParen, pos) :: ts
      else if c = ')' then
        (lexF n cs (pos + 1)).map fun ts => (Tok.tRParen, pos) :: ts
      else if c = ',' then
        (lexF n cs (pos + 1)).map fun ts => (Tok.tComma, pos) :: ts
      else if c = '.' then
        (lexF n cs (pos + 1)).map fun ts => (Tok.tDot, pos) :: ts
      else if c = ':' then
        match cs with
        | '-' :: cs' =>
            (lexF n cs' (pos + 2)).map fun ts => (Tok.tIf, pos) :: ts
        | _ => .error ⟨pos, "unexpected character"⟩
      else if c = '\\' then
        match cs with
        | '+' :: cs' =>
            (lexF n cs' (pos + 2)).map fun ts => (Tok.tNeg, pos) :: ts
        | _ => .error ⟨pos, "unexpected character"⟩
      else if c = '<' then
        match cs with
        | '=' :: cs' =>
            (lexF n cs' (pos + 2)).map fun ts => (Tok.tOp "<=", pos) :: ts
        | _ => (lexF n cs (pos + 1)).map fun ts => (Tok.tOp "<", pos) :: ts
      else if c = '>' then
        match cs with
        | '=' :: cs' =>
            (lexF n cs' (pos + 2)).map fun ts => (Tok.tOp ">=", pos) :: ts
        | _ => (lexF n cs (pos + 1)).map fun ts => (Tok.tOp ">", pos) :: ts
      else if c = '=' then
        (lexF n cs (pos + 1)).map fun ts => (Tok.tOp "=", pos) :: ts
      else if c = '!' then
        match cs with
        | '=' :: cs' =>
            (lexF n cs' (pos + 2)).map fun ts => (Tok.tOp "!=", pos) :: ts
        | _ => .error ⟨pos, "unexpected character"⟩
      else .error ⟨pos, "unexpected character"⟩

def lexProlog (src : String) : Except ParseError (List (Tok × Nat)) :=
  lexF (src.length + 1) src.toList 0

/-- A single `term`: `VARIABLE → Var`, `NUMBER → Const` (the transformer's
`number` method builds a base-class `Const`, not a `NumericConst`),
`NAME → Const`. -/
def parseTermTok : List (Tok × Nat) →
    Except ParseError (Term × List (Tok × Nat))
  | (Tok.tVar v, _) :: rest => .ok (.var v, rest)
  | (Tok.tNum s, _) :: rest => .ok (.const s, rest)
  | (Tok.tName s, _) :: rest => .ok (.const s, rest)
  | (_, p) :: _ => .error ⟨p, "expected a term"⟩
  | [] => .error ⟨0, "unexpected end of input"⟩

mutual

/-- The grammar's `predicate` nonterminal with one-token lookahead:
negation, compound call (`NAME(...)` or `ARITH_OP(...)`), or a `term`
followed by an infix comparison; a bare `NAME` is an arity-0 predicate. -/
def parsePredTok (fuel : Nat) (toks : List (Tok × Nat)) :
    Except ParseError (Term × List (Tok × Nat)) :=
  match fuel with
  | 0 => .error ⟨0, "parser fuel exhausted"⟩
  | n + 1 =>
      match toks with
      | (Tok.tNeg, _) :: rest => do
          let (p, rest') ← parsePredTok n rest
          pure (.predicate "\\+" [p], rest')
      | (Tok.tName nm, _) :: (Tok.tLParen, _) :: rest => do
          let (as, rest') ← parseTermListTok n rest
          match rest' with
          | (Tok.tRParen, _) :: rest'' => pure (.predicate nm as, rest'')
          | (_, p) :: _ => .error ⟨p, "expected closing parenthesis"⟩
          | [] => .error ⟨0, "unexpected end of input"⟩
      | (Tok.tOp op, _) :: (Tok.tLParen, _) :: rest => do
          let (as, rest') ← parseTermListTok n rest
          match rest' with
          | (Tok.tRParen, _) :: rest'' => pure (.predicate op as, rest'')
          | (_, p) :: _ => .error ⟨p, "expected closing parenthesis"⟩
          | [] => .error ⟨0, "unexpected end of input"⟩
      | _ => do
          let (t1, rest) ← parseTermTok toks
          match rest with
          | (Tok.tOp op, _) :: rest' => do
              let (t2, rest'') ← parseTermTok rest'
              pure (.predicate op [t1, t2], rest'')
          | _ =>
              match t1, toks with
              | .const nm, (Tok.tName _, _) :: _ =>
                  pure (.predicate nm [], rest)
              | _, (_, p) :: _ =>
                  .error ⟨p, "expected a predicate"⟩
              | _, [] => .error ⟨0, "unexpected end of input"⟩

/-- `term_list: term ("," term)*`. -/
def parseTermListTok (fuel : Nat) (toks : List (Tok × Nat)) :
    Except ParseError (List Term × List (Tok × Nat)) :=
  match fuel with
  | 0 => .error ⟨0, "parser fuel exhausted"⟩
  | n + 1 => do
      let (t, rest) ← parseTermTok toks
      match rest with
      | (Tok.tComma, _) :: rest' => do
          let (ts, rest'') ← parseTermListTok n rest'
          pure (t :: ts, rest'')
      | _ => pure ([t], rest)

end

/-- `predicate_list: predicate ("," predicate)*`. -/
def parsePredListTok (fuel : Nat) (toks : List (Tok × Nat)) :
    Except ParseError (List Term × List (Tok × Nat)) :=
  match fuel with
  | 0 => .error ⟨0, "parser fuel exhausted"⟩
  | n + 1 => do
      let (p, rest) ← parsePredTok (toks.length + 1) toks
      match rest with
      | (Tok.tComma, _) :: rest' => do
          let (ps, rest'') ← parsePredListTok n rest'
          pure (p :: ps, rest'')
      | _ => pure ([p], rest)

/-- `clause: predicate "."` (fact) or `predicate ":-" predicate_list "."`
(rule). -/
def parseClauseTok (toks : List (Tok × Nat)) :
    Except ParseError (Rule × List (Tok × Nat)) := do
  let (h, rest) ← parsePredTok (toks.length + 1) toks
  match rest with
  | (Tok.tDot, _) :: rest' => pure (⟨h, []⟩, rest')
  | (Tok.tIf, _) :: rest' => do
      let (b, rest'') ← parsePredListTok (rest'.length + 1) rest'
      match rest'' with
      | (Tok.tDot, _) :: rest''' => pure (⟨h, b⟩, rest''')
      | (_, p) :: _ => .error ⟨p, "expected end of clause"⟩
      | [] => .error ⟨0, "unexpected end of input"⟩
  | (_, p) :: _ => .error ⟨p, "expected end of clause"⟩
  | [] => .error ⟨0, "unexpected end of input"⟩

/-- `start: clause+`. -/
def parseClausesTok (fuel : Nat) (toks : List (Tok × Nat)) :
    Except ParseError (List Rule) :=
  match fuel with
  | 0 => .error ⟨0, "parser fuel exhausted"⟩
  | n + 1 => do
      let (r, rest) ← parseClauseTok toks
      match rest with
      | [] => pure [r]
      | _ => do
          let rs ← parseClausesTok n rest
          pure (r :: rs)

/-- `prolog_parser.parse`: lex, then parse one or more clauses covering the
whole input. -/
def parseProgram (src : String) : Except ParseError (List Rule) := do
  let toks ← lexProlog src
  parseClausesTok (toks.length + 1) toks

/-- `parse_kb`: returns the rule list, and the *empty list* on a parse
error (the exception is caught, printed, and swallowed — `parser.py`
lines 125-132). -/
def parse_kb (src : String) : List Rule :=
  match parseProgram src with
  | .ok rs => rs
  | .error _ => []

/-- Python `str.strip()` (ASCII whitespace suffices for these inputs).
Implemented over the character list so that it reduces in the kernel. -/
def pyStrip (s : String) : String :=
  String.mk
    (((s.toList.dropWhile Char.isWhitespace).reverse.dropWhile
      Char.isWhitespace).reverse)

/-- `str.endswith` (kernel-computable). -/
def chEndsWith (s suffix : String) : Bool :=
  suffix.toList.isSuffixOf s.toList

/-- Drop the final character (kernel-computable `s[:-1]`). -/
def strDropLast (s : String) : String :=
  String.mk s.toList.dropLast

/-- `parse_rule`: `None` on blank input; append a terminating `.` when the
stripped text lacks one; `None` on a parse error or empty result. -/
def parse_rule (s : String) : Option Rule :=
  if (pyStrip s).toList.isEmpty then none
  else
    let s' := if chEndsWith (pyStrip s) "." then s else pyStrip s ++ "."
    match parseProgram s' with
    | .ok (r :: _) => some r
    | .ok [] => none
    | .error _ => none

/-- `parse_predicate`: parse the text as a fact and return its head. -/
def parse_predicate (s : String) : Option Term :=
  if (pyStrip s).toList.isEmpty then none
  else
    let s' := if chEndsWith (pyStrip s) "." then pyStrip s else pyStrip s ++ "."
    match parseProgram s' with
    | .ok (r :: _) => some r.head
    | .ok [] => none
    | .error _ => none

/-- `parse_query`: strip one trailing `.` and parse as a predicate. -/
def parse_query (s : String) : Option Term :=
  let s' := pyStrip s
  let s'' := if chEndsWith s' "." then pyStrip (strDropLast s') else s'
  parse_predicate s''

/-! ## KB facade (`miniprolog.py`)

`Miniprolog` holds `program_rules` (filled by `consult`) and
`asserted_facts` (filled by `assertz`).  Errors raised to the caller
(`ValueError`, `FileNotFoundError`, pydantic validation errors) are modelled
with `PyError`; goal failure is never an error. -/

structure MiniprologState where
  program_rules : List Rule
  asserted_facts : List Rule
deriving DecidableEq

inductive PyError where
  | valueError (msg : String)
  | fileNotFound (msg : String)
  | validationError (msg : String)
deriving DecidableEq

def emptyMiniprolog : MiniprologState := ⟨[], []⟩

/-- `_remove_ending_periods`: drop trailing `.` characters. -/
def repAux : Nat → String → String
  | 0, s => s
  | n + 1, s => if chEndsWith s "." then repAux n (strDropLast s) else s

def removeEndingPeriods (s : String) : String :=
  repAux s.toList.length s

/-- `_get_combined_kb`: program rules then asserted facts. -/
def combinedKB (st : MiniprologState) : KB :=
  ⟨st.program_rules ++ st.asserted_facts⟩

/-- `consult`: a source containing `/` or ending in `.pl`/`.pro` is treated
as a file path.  The embedding has no file system, so the path branch fails
with `FileNotFoundError` (as the source does for a missing file); every
claim below consults program text only. -/
def isPathLike (s : String) : Bool :=
  s.toList.contains '/' ∨ chEndsWith s ".pl" ∨ chEndsWith s ".pro"

def consult (st : MiniprologState) (source : String) :
    Except PyError MiniprologState :=
  if isPathLike source then
    .error (.fileNotFound ("Prolog file not found: " ++ source))
  else
    .ok { st with program_rules := st.program_rules ++ parse_kb source }

/-- `assertz`: parse a single clause (`ValueError` on failure — note: no
position information) and append it to `asserted_facts`. -/
def assertz (st : MiniprologState) (fact : String) :
    Except PyError MiniprologState :=
  let f := removeEndingPeriods (pyStrip fact)
  match parse_rule f with
  | none => .error (.valueError ("Invalid Prolog syntax: " ++ f))
  | some r => .ok { st with asserted_facts := st.asserted_facts ++ [r] }

/-- The bound standing in for the Python interpreter's recursion limit in
`_rules_match`'s `try`/`except`; no claim depends on its value. -/
def matchFuel : Nat := 1000

/-- `_rules_match`: heads unify from an empty substitution; if unification
blows the recursion limit the exception is caught and the rules are compared
as strings. -/
def rules_match (r1 r2 : Rule) : Bool :=
  match unifyF matchFuel r1.head r2.head (some emptySubst) with
  | some res => res.isSome
  | none => strRule r1 = strRule r2

/-- The removal loop of `retract`: delete the first matching rule. -/
def removeFirstMatch : List Rule → Rule → List Rule
  | [], _ => []
  | r :: rs, t => if rules_match r t then rs else r :: removeFirstMatch rs t

/-- `retract`: parse the pattern, then remove the first rule of
`asserted_facts` whose head matches; a no-op when none matches. -/
def retract (st : MiniprologState) (fact : String) :
    Except PyError MiniprologState :=
  let f := removeEndingPeriods (pyStrip fact)
  match parse_rule f with
  | none => .error (.valueError ("Invalid Prolog syntax: " ++ f))
  | some target =>
      .ok { st with asserted_facts := removeFirstMatch st.asserted_facts target }

/-- `retractall`: remove every matching rule from `asserted_facts`. -/
def retractall (st : MiniprologState) (pattern : String) :
    Except PyError MiniprologState :=
  let f := removeEndingPeriods (pyStrip pattern)
  match parse_rule f with
  | none => .error (.valueError ("Invalid Prolog syntax: " ++ f))
  | some target =>
      .ok { st with
        asserted_facts :=
          st.asserted_facts.filter fun r => ¬ rules_match r target }

/-- The binding projection of `query`: one entry per variable name occurring
in the query predicate (the source collects them into a set; the embedding
fixes first-occurrence order — `dict` equality ignores order).  A name bound
in the substitution maps to the `name` attribute of the fully applied term
(every term class has `name`, so the `hasattr(final_term, 'name')` branch is
always taken); an unbound name maps to itself. -/
def bindingsOfF (fuel : Nat) (s : Subst) (qp : Term) :
    Option (List (String × String)) :=
  (dedupFirst (varOccsT qp)).mapM fun vn =>
    match s.lookup vn with
    | some _ => do
        let ft ← applyF fuel s (.var vn)
        pure (vn, ft.name)
    | none => pure (vn, vn)

/-- `query`: parse (raising `ValueError` on failure), resolve against the
combined KB from an empty substitution, and project each solution to its
bindings.  The outer `Option` is the resolution fuel (`none` = the source
diverges). -/
def queryF (now : Int) (fuel : Nat) (st : MiniprologState) (q : String) :
    Option (Except PyError (List (List (String × String)))) :=
  let q' := removeEndingPeriods (pyStrip q)
  match parse_query q' with
  | none => some (.error (.valueError ("Invalid query syntax: " ++ q')))
  | some qp => do
      let results ← sld_resolution now fuel (combinedKB st) [qp]
      let bs ← results.mapM fun rc => bindingsOfF fuel rc.1 qp
      pure (.ok bs)

/-! ## Persistence (`save`)

`save` writes `model_dump()` of each rule as JSON.  The embedding models
the JSON document as an inductive value (the text serialization
round-trips the document unchanged); floats are modelled as exact
decimals.

Serialization of a `Predicate.args` element follows pydantic's smart
union serializer over the declared union `NumericConst | AtomConst |
StringConst | Var | Predicate | Term`: a value whose exact class is a
member is serialized with that member's schema (all its fields); a
base-class `Const` — what the parser produces for every constant, see C5
— matches no member exactly and, in the subclass pass, only the `Term`
member by `isinstance`, so it is serialized with the base `Term` schema,
which declares only the `type` field: its `name` is dropped from the
document. -/

inductive Json where
  | jstr (s : String)
  | jint (n : Int)
  | jdec (d : DecNum)
  | jarr (l : List Json)
  | jobj (l : List (String × Json))

/-- `int(s)` acceptance: optional sign and nonempty digits (underscores and
surrounding whitespace, which no name in this system contains, are not
modelled). -/
def pyIntAccepts (s : String) : Bool :=
  let cs := s.toList
  let cs := match cs with
    | '-' :: r => r
    | '+' :: r => r
    | r => r
  ¬ cs.isEmpty ∧ cs.all Char.isDigit

/-- `float(s)` acceptance for strings containing a dot: optional sign,
digits, one dot, digits, at least one digit overall (exponents, which no
name in this system contains, are not modelled). -/
def pyFloatAccepts (s : String) : Bool :=
  let cs := s.toList
  let cs := match cs with
    | '-' :: r => r
    | '+' :: r => r
    | r => r
  let ip := cs.takeWhile Char.isDigit
  match cs.drop ip.length with
  | [] => ¬ ip.isEmpty
  | '.' :: fp => fp.all Char.isDigit ∧ (¬ ip.isEmpty ∨ ¬ fp.isEmpty)
  | _ => false

/-- `NumericConst.model_post_init` acceptance of a name string. -/
def pyNumAccepts (s : String) : Bool :=
  if s.toList.contains '.' then pyFloatAccepts s else pyIntAccepts s

mutual

/-- `model_dump()` of a term (fields in declaration order; `NumericConst`
additionally dumps its derived `value`; a base-class `Const` argument is
serialized through the `Term` union member — only `type` survives, the
`name` is dropped). -/
def dumpTerm : Term → Json
  | .const _ => .jobj [("type", .jstr "const")]
  | .numericConst n =>
      .jobj [("type", .jstr "const"), ("name", .jstr n),
        ("value",
          if n.toList.contains '.' then .jdec (decOfNumString n)
          else .jint (decTrunc (decOfNumString n)))]
  | .atomConst n => .jobj [("type", .jstr "const"), ("name", .jstr n)]
  | .stringConst n => .jobj [("type", .jstr "const"), ("name", .jstr n)]
  | .var n => .jobj [("type", .jstr "var"), ("name", .jstr n)]
  | .predicate n as =>
      .jobj [("type", .jstr "predicate"), ("name", .jstr n),
        ("args", .jarr (dumpTermList as))]

def dumpTermList : List Term → List Json
  | [] => []
  | t :: ts => dumpTerm t :: dumpTermList ts

end

/-- `Rule.model_dump()`. -/
def dumpRule (r : Rule) : Json :=
  .jobj [("head", dumpTerm r.head), ("body", .jarr (r.body.map dumpTerm))]

/-- `save(filename, program, facts)`: the JSON document written to disk. -/
def save (st : MiniprologState) (program facts : Bool) : Json :=
  .jobj
    ((if program then
        [("program_rules", Json.jarr (st.program_rules.map dumpRule))]
      else []) ++
     (if facts then
        [("asserted_facts", Json.jarr (st.asserted_facts.map dumpRule))]
      else []))

/-! ## Concrete programs used by the claims -/

/-- The knowledge base `p(a). p(b).` of scenario S4. -/
def kbS4 : KB := ⟨parse_kb "p(a). p(b)."⟩

def stS4 : MiniprologState := ⟨parse_kb "p(a). p(b).", []⟩

/-- The goal list `p(X), \\+ p(c)` built at the `sld_resolution` level. -/
def goalsS4 : List Term :=
  [Term.predicate "p" [Term.var "X"],
   Term.predicate "\\+" [Term.predicate "p" [Term.const "c"]]]

/-- A KB with the single fact `p(3).` (as the parser produces it). -/
def kbPthree : KB := ⟨parse_kb "p(3)."⟩

/-- The goal list `X >= 5, p(X)`: a comparison *before* an ordinary goal. -/
def goalsConstraintFirst : List Term :=
  [Term.predicate ">=" [Term.var "X", Term.const "5"],
   Term.predicate "p" [Term.var "X"]]

/-- A program whose rule binds its head variable to a compound term via the
`stamp_date_time` built-in. -/
def stWhen : MiniprologState :=
  ⟨parse_kb "when(D) :- get_time(T), stamp_date_time(T, D, 0).", []⟩

/-- `date(1970, 1, 1, 0, 0, 0, 4, 1, 0)`: the compound produced by
`stamp_date_time` for timestamp 0. -/
def epochDate : Term := Term.predicate "date"
  [Term.numericConst "1970", Term.numericConst "1", Term.numericConst "1",
   Term.numericConst "0", Term.numericConst "0", Term.numericConst "0",
   Term.numericConst "4", Term.numericConst "1", Term.numericConst "0"]

/-- The solution substitution of `when(D)` with the clock at 0. -/
def whenSubst : Subst :=
  ⟨[("D", epochDate), ("T_1", Term.numericConst "0"), ("D_0", epochDate)]⟩

end MiniProlog

namespace MiniProlog

/-! ## Claim C1 -/

/-- Claim C1, counterexample: `unify(p(X, b), p(a, b), Subst({}))` succeeds,
but it returns the *empty* substitution — `unify_constants` discards the
binding `X ↦ a` accumulated by the argument fold — so applying the result to
the two inputs leaves them distinct (`p(X, b)` vs `p(a, b)`). -/
theorem C1_unify_soundness_counterexample :
    unifyF 50 (Term.predicate "p" [Term.var "X", Term.const "b"])
      (Term.predicate "p" [Term.const "a", Term.const "b"])
      (some emptySubst) = some (some emptySubst) ∧
    applyF 50 emptySubst (Term.predicate "p" [Term.var "X", Term.const "b"]) =
      some (Term.predicate "p" [Term.var "X", Term.const "b"]) ∧
    applyF 50 emptySubst (Term.predicate "p" [Term.const "a", Term.const "b"]) =
      some (Term.predicate "p" [Term.const "a", Term.const "b"]) ∧
    Term.predicate "p" [Term.var "X", Term.const "b"] ≠
      Term.predicate "p" [Term.const "a", Term.const "b"] :=
  ⟨rfl, rfl, rfl, by decide⟩

/-- A term of the constant family or a variable. -/
def Term.isAtomic : Term → Bool
  | .predicate _ _ => false
  | _ => true

/-- Same runtime class (pydantic equality compares classes first). -/
def sameKind : Term → Term → Bool
  | .const _, .const _ => true
  | .numericConst _, .numericConst _ => true
  | .atomConst _, .atomConst _ => true
  | .stringConst _, .stringConst _ => true
  | .var _, .var _ => true
  | .predicate _ _, .predicate _ _ => true
  | _, _ => false

set_option maxHeartbeats 2000000 in
/-- Claim C1 as amended: for *atomic* terms (constants or variables, two
constants additionally of the same `Const` subclass) unified under the
*empty* substitution, success of `unify` does give `s'.apply(x) =
s'.apply(y)`.  The compound case fails (the counterexample above), a
non-empty starting substitution fails (`unify_predicates` restarts from an
empty substitution), and two constants of different subclasses with equal
names unify yet stay unequal under pydantic equality. -/
theorem C1_unify_soundness_amended :
    ∀ (x y : Term) (s' : Subst),
      x.isAtomic = true → y.isAtomic = true →
      (x.isConst = true → y.isConst = true → sameKind x y = true) →
      unifyF 5 x y (some emptySubst) = some (some s') →
      ∃ r, applyF 5 s' x = some r ∧ applyF 5 s' y = some r := by
  intro x y s' hx hy hk h
  cases x <;> cases y
  all_goals try simp [Term.isAtomic] at hx
  all_goals try simp [Term.isAtomic] at hy
  all_goals try { have hks := hk rfl rfl; simp [sameKind] at hks; done }
  case const.const =>
    simp [unifyF, applyF, unify_constants, Term.isConst, Term.name] at h
    obtain ⟨he, hs⟩ := h
    subst he
    subst hs
    exact ⟨_, rfl, rfl⟩
  case numericConst.numericConst =>
    simp [unifyF, applyF, unify_constants, Term.isConst, Term.name] at h
    obtain ⟨he, hs⟩ := h
    subst he
    subst hs
    exact ⟨_, rfl, rfl⟩
  case atomConst.atomConst =>
    simp [unifyF, applyF, unify_constants, Term.isConst, Term.name] at h
    obtain ⟨he, hs⟩ := h
    subst he
    subst hs
    exact ⟨_, rfl, rfl⟩
  case stringConst.stringConst =>
    simp [unifyF, applyF, unify_constants, Term.isConst, Term.name] at h
    obtain ⟨he, hs⟩ := h
    subst he
    subst hs
    exact ⟨_, rfl, rfl⟩
  case var.var v w =>
    simp [unifyF, applyF, Subst.extend, dictInsert, emptySubst,
      Subst.lookup] at h
    by_cases hv : v = w
    · subst hv
      simp at h
      subst h
      exact ⟨_, rfl, rfl⟩
    · simp [hv] at h
      subst h
      have hbe : (w == v) = false := beq_eq_false_iff_ne.mpr (Ne.symm hv)
      refine ⟨Term.var w, ?_, ?_⟩
      · simp [applyF, Subst.lookup, List.lookup, hbe]
      · simp [applyF, Subst.lookup, List.lookup, hbe]
  case var.const =>
    simp [unifyF, applyF, Subst.extend, dictInsert, emptySubst,
      Subst.lookup, unify_constants, Term.isConst] at h
    subst h
    exact ⟨_, by simp [applyF, Subst.lookup, List.lookup], rfl⟩
  case var.numericConst =>
    simp [unifyF, applyF, Subst.extend, dictInsert, emptySubst,
      Subst.lookup, unify_constants, Term.isConst] at h
    subst h
    exact ⟨_, by simp [applyF, Subst.lookup, List.lookup], rfl⟩
  case var.atomConst =>
    simp [unifyF, applyF, Subst.extend, dictInsert, emptySubst,
      Subst.lookup, unify_constants, Term.isConst] at h
    subst h
    exact ⟨_, by simp [applyF, Subst.lookup, List.lookup], rfl⟩
  case var.stringConst =>
    simp [unifyF, applyF, Subst.extend, dictInsert, emptySubst,
      Subst.lookup, unify_constants, Term.isConst] at h
    subst h
    exact ⟨_, by simp [applyF, Subst.lookup, List.lookup], rfl⟩
  case const.var =>
    simp [unifyF, applyF, Subst.extend, dictInsert, emptySubst,
      Subst.lookup, unify_constants, Term.isConst] at h
    subst h
    exact ⟨_, rfl, by simp [applyF, Subst.lookup, List.lookup]⟩
  case numericConst.var =>
    simp [unifyF, applyF, Subst.extend, dictInsert, emptySubst,
      Subst.lookup, unify_constants, Term.isConst] at h
    subst h
    exact ⟨_, rfl, by simp [applyF, Subst.lookup, List.lookup]⟩
  case atomConst.var =>
    simp [unifyF, applyF, Subst.extend, dictInsert, emptySubst,
      Subst.lookup, unify_constants, Term.isConst] at h
    subst h
    exact ⟨_, rfl, by simp [applyF, Subst.lookup, List.lookup]⟩
  case stringConst.var =>
    simp [unifyF, applyF, Subst.extend, dictInsert, emptySubst,
      Subst.lookup, unify_constants, Term.isConst] at h
    subst h
    exact ⟨_, rfl, by simp [applyF, Subst.lookup, List.lookup]⟩

/-- Witness for the amended C1: `unify(X, a, Subst({}))` binds `X ↦ a` and
both sides apply to the same term. -/
theorem C1_unify_soundness_amended_witness :
    ∃ r, applyF 5 ⟨[("X", Term.const "a")]⟩ (Term.var "X") = some r ∧
      applyF 5 ⟨[("X", Term.const "a")]⟩ (Term.const "a") = some r :=
  C1_unify_soundness_amended (Term.var "X") (Term.const "a")
    ⟨[("X", Term.const "a")]⟩ rfl rfl (by decide) rfl

/-! ## Claim C2 -/

/-- Claim C2, counterexample: resolving `X >= 5, p(X)` against the single
fact `p(3).` posts the constraint `X >= 5` and then hands the ordinary goal
`p(X)` to `search_solutions`, which drops the store (it calls
`sld_resolution` without passing `constraints`).  The branch therefore
succeeds — with an empty final store — although the constraint posted on it
evaluates to `False` under the final substitution `{X ↦ 3}`. -/
theorem C2_constraint_store_counterexample :
    sld_resolution 0 100 kbPthree goalsConstraintFirst =
      some [(⟨[("X", Term.const "3")]⟩, ⟨[]⟩)] ∧
    predicate_to_constraint (Term.predicate ">=" [Term.var "X", Term.const "5"]) =
      some ⟨">=", Term.var "X", Term.const "5"⟩ ∧
    ArithmeticConstraint.evaluate 100 ⟨">=", Term.var "X", Term.const "5"⟩
      ⟨[("X", Term.const "3")]⟩ = some false :=
  ⟨rfl, rfl, rfl⟩

/-! ## Claim C3 -/

/-- Claim C3, counterexample: with the KB `p(a). p(b).`, the query text
`p(X), \\+ p(c).` does not parse — the grammar has no rule for a
conjunction at the top level of a query — so `query` raises
`ValueError("Invalid query syntax: …")` instead of yielding any solution. -/
theorem C3_negation_query_counterexample :
    queryF 0 100 stS4 "p(X), \\+ p(c)." =
      some (.error (.valueError "Invalid query syntax: p(X), \\+ p(c)")) :=
  rfl

/-- Claim C3 as amended: the KB text parses to exactly the two facts;
`parse_query` rejects the conjunction, so `query` raises; and the
conjunction submitted directly to `sld_resolution` (the only way to run it)
yields exactly two solutions, `X = a` first, then `X = b`. -/
theorem C3_negation_query_amended :
    parse_kb "p(a). p(b)." =
      [⟨Term.predicate "p" [Term.const "a"], []⟩,
       ⟨Term.predicate "p" [Term.const "b"], []⟩] ∧
    parse_query "p(X), \\+ p(c)." = none ∧
    sld_resolution 0 100 kbS4 goalsS4 =
      some [(⟨[("X", Term.const "a")]⟩, ⟨[]⟩),
        (⟨[("X", Term.const "b")]⟩, ⟨[]⟩)] :=
  ⟨rfl, rfl, rfl⟩

/-- The comparison-operator names and the built-in names are disjoint. -/
theorem opListNotBuiltin : ∀ op ∈ opList, ¬ op ∈ builtinNames := by
  decide

/-- Claim C2 as amended: (i) with the goal list empty the branch yields a
solution exactly when the *current* store is satisfied; (ii) a comparison
goal is posted to a functionally extended local copy of the store; but
(iii) at an ordinary (rule-dispatched) goal the result does not depend on
the incoming store at all — `search_solutions` restarts the recursion with
no store, discarding every constraint posted before that goal. -/
theorem C2_constraint_store_amended :
    (∀ (now : Int) (n : Nat) (kb : KB) (s : Subst) (k : Nat)
        (C? : Option ConstraintStore) (sat : Bool),
        (C?.getD emptyStore).is_satisfied (n + 1) s = some sat →
        sldF now (n + 1) kb [] (some s) k C? =
          some (if sat then [(s, C?.getD emptyStore)] else [])) ∧
    (∀ (now : Int) (n : Nat) (kb : KB) (op : String) (l r : Term)
        (rest : List Term) (s : Subst) (k : Nat) (C : ConstraintStore)
        (c : ArithmeticConstraint),
        predicate_to_constraint (Term.predicate op [l, r]) = some c →
        sldF now (n + 1) kb (Term.predicate op [l, r] :: rest) (some s) k
            (some C) =
          sldF now n kb rest (some s) k (some ⟨C.constraints ++ [c]⟩)) ∧
    (∀ (now : Int) (n : Nat) (kb : KB) (g : Term) (rest : List Term)
        (s : Subst) (k : Nat) (C1? C2? : Option ConstraintStore),
        ¬(g.name = "\\+" ∧ g.args.length = 1) →
        is_builtin g = false →
        predicate_to_constraint g = none →
        sldF now (n + 1) kb (g :: rest) (some s) k C1? =
          sldF now (n + 1) kb (g :: rest) (some s) k C2?) := by
  refine ⟨?_, ?_, ?_⟩
  · intro now n kb s k C? sat h
    simp only [sldF, ConstraintStore.is_satisfied] at h ⊢
    rw [h]
    rfl
  · intro now n kb op l r rest s k C c h
    have hop : op ∈ opList := by
      by_cases hc : (isArithmeticConstraint (Term.predicate op [l, r]) ∧
          Term.name (Term.predicate op [l, r]) ∈ opList)
      · exact hc.2
      · rw [predicate_to_constraint, if_neg hc] at h
        cases h
    have hnotneg : ¬(op = "\\+") := by
      intro he
      subst he
      simp [opList] at hop
    have hnotbi : ¬ op ∈ builtinNames := opListNotBuiltin op hop
    simp [sldF, Term.name, Term.args, hnotneg, is_builtin, hnotbi, h]
  · intro now n kb g rest s k C1? C2? hneg hbi hc
    simp [sldF, hneg, hbi, hc]

/-- Witness for the amended C2 at concrete inputs: the empty goal list with
an empty store succeeds, and the comparison goal `X >= 5` is posted to the
extended store. -/
theorem C2_constraint_store_amended_witness :
    sldF 0 4 ⟨[]⟩ [] (some emptySubst) 0 none =
      some [(emptySubst, emptyStore)] ∧
    sldF 0 4 ⟨[]⟩ [Term.predicate ">=" [Term.var "X", Term.const "5"]]
        (some emptySubst) 0 (some ⟨[]⟩) =
      sldF 0 3 ⟨[]⟩ [] (some emptySubst) 0
        (some ⟨[⟨">=", Term.var "X", Term.const "5"⟩]⟩) :=
  ⟨(C2_constraint_store_amended.1 0 3 ⟨[]⟩ emptySubst 0 none true rfl).trans
    (by rfl),
   C2_constraint_store_amended.2.1 0 3 ⟨[]⟩ ">=" (Term.var "X")
     (Term.const "5") [] emptySubst 0 ⟨[]⟩
     ⟨">=", Term.var "X", Term.const "5"⟩ rfl⟩

/-! ## Claim C4 -/

/-- Claim C4, counterexample (system clock modelled at epoch 0): consulting
`when(D) :- get_time(T), stamp_date_time(T, D, 0).` and querying `when(D)`
binds `D` to the compound `date(1970, 1, 1, 0, 0, 0, 4, 1, 0)`, but the
result maps `D` to `"date"` — `query` stores `final_term.name`, the functor
name, not the textual representation of the bound term. -/
theorem C4_projection_counterexample :
    queryF 0 200 stWhen "when(D)" = some (.ok [[("D", "date")]]) ∧
    sld_resolution 0 200 (combinedKB stWhen)
      [Term.predicate "when" [Term.var "D"]] = some [(whenSubst, ⟨[]⟩)] ∧
    applyF 200 whenSubst (Term.var "D") = some epochDate ∧
    strTerm epochDate = "date(1970, 1, 1, 0, 0, 0, 4, 1, 0)" ∧
    ("date" : String) ≠ "date(1970, 1, 1, 0, 0, 0, 4, 1, 0)" :=
  ⟨rfl, rfl, rfl, rfl, by decide⟩

/-- If an option-valued map over a list succeeds, every output element comes
from some input element. -/
theorem mapMOptionMem {α β : Type} (f : α → Option β) :
    ∀ (l : List α) (res : List β), l.mapM f = some res →
      ∀ b ∈ res, ∃ a ∈ l, f a = some b := by
  intro l
  induction l with
  | nil =>
      intro res h b hb
      rw [List.mapM_nil] at h
      cases h
      cases hb
  | cons a as ih =>
      intro res h b hb
      rw [List.mapM_cons] at h
      cases hfa : f a with
      | none => rw [hfa] at h; simp at h
      | some x =>
          rw [hfa] at h
          cases hmap : as.mapM f with
          | none => rw [hmap] at h; simp at h
          | some xs =>
              rw [hmap] at h
              simp at h
              subst h
              cases List.mem_cons.mp hb with
              | inl he => exact ⟨a, by simp, he ▸ hfa⟩
              | inr hm =>
                  obtain ⟨a', ha', hfa'⟩ := ih xs hmap b hm
                  exact ⟨a', by simp [ha'], hfa'⟩

/-- An option-valued map whose outputs carry their input as first component
reproduces the input list in the first components. -/
theorem mapMOptionFst {β : Type} (f : String → Option (String × β))
    (hf : ∀ v p, f v = some p → p.1 = v) :
    ∀ (l : List String) (res : List (String × β)), l.mapM f = some res →
      res.map Prod.fst = l := by
  intro l
  induction l with
  | nil =>
      intro res h
      rw [List.mapM_nil] at h
      cases h
      rfl
  | cons a as ih =>
      intro res h
      rw [List.mapM_cons] at h
      cases hfa : f a with
      | none => rw [hfa] at h; simp at h
      | some x =>
          rw [hfa] at h
          cases hmap : as.mapM f with
          | none => rw [hmap] at h; simp at h
          | some xs =>
              rw [hmap] at h
              simp at h
              subst h
              simp [hf a x hfa, ih xs hmap]

/-- Each entry built by the binding projection is keyed by its variable
name. -/
theorem bindingsEntryFst (fuel : Nat) (s : Subst) :
    ∀ v (p : String × String),
      (match s.lookup v with
        | some _ => do
            let ft ← applyF fuel s (.var v)
            pure (v, Term.name ft)
        | none => pure (v, v)) = some p → p.1 = v := by
  intro v p h
  cases hl : s.lookup v with
  | none => rw [hl] at h; cases h; rfl
  | some t =>
      rw [hl] at h
      cases ha : applyF fuel s (.var v) with
      | none => rw [ha] at h; cases h
      | some ft => rw [ha] at h; cases h; rfl

/-- Claim C4 as amended: every result of `query(Q)` has exactly the
variable names occurring in `Q` as keys (in first-occurrence order, one
entry each); a key bound in the solution substitution maps to the `name`
attribute of its fully applied term — the functor name alone when that term
is a compound, the textual representation otherwise — and an unbound key
maps to itself. -/
theorem C4_projection_amended :
    (∀ (now : Int) (fuel : Nat) (st : MiniprologState) (q : String)
        (qp : Term) (res : List (List (String × String))),
        parse_query (removeEndingPeriods (pyStrip q)) = some qp →
        queryF now fuel st q = some (.ok res) →
        ∀ b ∈ res, b.map Prod.fst = dedupFirst (varOccsT qp)) ∧
    (∀ (fuel : Nat) (s : Subst) (qp : Term) (b : List (String × String)),
        bindingsOfF fuel s qp = some b →
        ∀ p ∈ b, (s.lookup p.1 = none ∧ p.2 = p.1) ∨
          ∃ t, applyF fuel s (.var p.1) = some t ∧ p.2 = t.name) := by
  constructor
  · intro now fuel st q qp res hq h b hb
    unfold queryF at h
    simp only [hq] at h
    obtain ⟨results, hs, h2⟩ := Option.bind_eq_some.mp h
    obtain ⟨bs, hm, h3⟩ := Option.bind_eq_some.mp h2
    have hbs : bs = res := by
      cases h3
      rfl
    subst hbs
    obtain ⟨rc, _, hrc⟩ := mapMOptionMem _ results bs hm b hb
    unfold bindingsOfF at hrc
    exact mapMOptionFst _ (bindingsEntryFst fuel rc.1) _ b hrc
  · intro fuel s qp b h p hp
    unfold bindingsOfF at h
    obtain ⟨vn, _, hvn⟩ :=
      mapMOptionMem _ (dedupFirst (varOccsT qp)) b h p hp
    cases hl : s.lookup vn with
    | none =>
        rw [hl] at hvn
        cases hvn
        exact Or.inl ⟨hl, rfl⟩
    | some t =>
        rw [hl] at hvn
        cases ha : applyF fuel s (.var vn) with
        | none => rw [ha] at hvn; cases hvn
        | some ft =>
            rw [ha] at hvn
            cases hvn
            exact Or.inr ⟨ft, ha, rfl⟩


/-- Witness for the amended C4: querying `p(X)` over `p(a). p(b).` yields
binding maps whose keys are exactly `X`. -/
theorem C4_projection_amended_witness :
    List.map Prod.fst [("X", "a")] =
      dedupFirst (varOccsT (Term.predicate "p" [Term.var "X"])) :=
  C4_projection_amended.1 0 100 stS4 "p(X)"
    (Term.predicate "p" [Term.var "X"]) [[("X", "a")], [("X", "b")]]
    rfl rfl [("X", "a")] (by simp)

/-! ## Claim C5 -/

/-- Claim C5 is right and the code is wrong: the parser's `number`
transformer builds a *base-class* `Const` (`parser.py` line 111), whose
`is_numeric` is unconditionally `False` (`syntax.py` lines 19-20), although
its name `"30"` parses as a number.  The repo's own tests
(`test_parse_predicate_edge_cases.test_parse_numeric_constants`, and the
arithmetic end-to-end test) expect the parser to produce a `NumericConst`,
whose `is_numeric` is `True`. -/
theorem C5_is_numeric_code_bug :
    parse_predicate "age(alice, 30)" =
      some (Term.predicate "age" [Term.const "alice", Term.const "30"]) ∧
    Term.is_numeric (Term.const "30") = false ∧
    pyNumAccepts "30" = true ∧
    Term.is_numeric (Term.numericConst "30") = true :=
  ⟨rfl, rfl, rfl, rfl⟩

/-! ## Claim C6 -/

/-- Claim C6, counterexample: the internal parse of the invalid source `p(`
fails with a position-carrying error, but `parse_kb` swallows it and
returns `[]`, so `consult` returns normally with the KB unchanged rather
than surfacing the error; `assertz` does raise, but its `ValueError` carries
no position information. -/
theorem C6_parse_error_counterexample :
    parseProgram "p(" = .error ⟨0, "unexpected end of input"⟩ ∧
    parse_kb "p(" = [] ∧
    consult emptyMiniprolog "p(" = .ok emptyMiniprolog ∧
    assertz emptyMiniprolog "p(" =
      .error (.valueError "Invalid Prolog syntax: p(") :=
  ⟨rfl, rfl, rfl, rfl⟩

/-- Claim C6 as amended: on syntactically invalid source the internal parse
fails (with a position), but `parse_kb` returns the empty list and `consult`
of bad text returns normally with `program_rules` unchanged; `assertz`,
`retract` and `retractall` raise `ValueError` (without position
information). -/
theorem C6_parse_error_amended :
    (∀ (src : String) (e : ParseError), parseProgram src = .error e →
      parse_kb src = []) ∧
    (∀ (st : MiniprologState) (src : String) (e : ParseError),
      parseProgram src = .error e → isPathLike src = false →
      consult st src = .ok st) ∧
    (∀ (st : MiniprologState) (f : String),
      parse_rule (removeEndingPeriods (pyStrip f)) = none →
      assertz st f = .error (.valueError
          ("Invalid Prolog syntax: " ++ removeEndingPeriods (pyStrip f))) ∧
      retract st f = .error (.valueError
          ("Invalid Prolog syntax: " ++ removeEndingPeriods (pyStrip f))) ∧
      retractall st f = .error (.valueError
          ("Invalid Prolog syntax: " ++ removeEndingPeriods (pyStrip f)))) := by
  refine ⟨?_, ?_, ?_⟩
  · intro src e h
    unfold parse_kb
    rw [h]
  · intro st src e h hpath
    unfold consult
    rw [hpath]
    unfold parse_kb
    rw [h]
    simp
  · intro st f h
    refine ⟨?_, ?_, ?_⟩
    · unfold assertz
      simp only [h]
    · unfold retract
      simp only [h]
    · unfold retractall
      simp only [h]

/-- Witness for the amended C6 at the concrete bad source `p(`. -/
theorem C6_parse_error_amended_witness :
    parse_kb "p(" = [] ∧
    consult ⟨[], []⟩ "p(" = .ok ⟨[], []⟩ ∧
    retract ⟨[], []⟩ "p(" =
      .error (.valueError "Invalid Prolog syntax: p(") :=
  ⟨C6_parse_error_amended.1 "p(" ⟨0, "unexpected end of input"⟩ rfl,
   C6_parse_error_amended.2.1 ⟨[], []⟩ "p(" ⟨0, "unexpected end of input"⟩
     rfl rfl,
   (C6_parse_error_amended.2.2 ⟨[], []⟩ "p(" rfl).2.1⟩

/-! ## Claim C10 -/

/-- An empty goal list is resolved without looking at the knowledge base. -/
theorem sldNilKBIndep (now : Int) (n : Nat) (kb kb' : KB)
    (s? : Option Subst) (k : Nat) (C? : Option ConstraintStore) :
    sldF now n kb [] s? k C? = sldF now n kb' [] s? k C? := by
  cases n <;> cases s? <;> rfl

/-- Every built-in name differs from the negation functor. -/
theorem builtinNotNeg : ∀ x ∈ builtinNames, ¬ x = "\\+" := by
  decide

/-- `_date_time_stamp` with an argument count other than 2 yields no
substitutions. -/
theorem dateTimeStampB_arity (fuel : Nat) (g : Term) (s : Subst)
    (h : g.args.length ≠ 2) : dateTimeStampB fuel g s = some [] := by
  unfold dateTimeStampB
  rcases hargs : g.args with _ | ⟨a, _ | ⟨b, _ | ⟨c, l⟩⟩⟩
  · rfl
  · rfl
  · exact absurd (by rw [hargs]; rfl) h
  · rfl

/-- `_stamp_date_time` with an argument count other than 3 yields no
substitutions. -/
theorem stampDateTimeB_arity (fuel : Nat) (g : Term) (s : Subst)
    (h : g.args.length ≠ 3) : stampDateTimeB fuel g s = some [] := by
  unfold stampDateTimeB
  rcases hargs : g.args with _ | ⟨a, _ | ⟨b, _ | ⟨c, _ | ⟨d, l⟩⟩⟩⟩
  · rfl
  · rfl
  · rfl
  · exact absurd (by rw [hargs]; rfl) h
  · rfl

/-- `_get_time` with an argument count other than 1 yields no
substitutions. -/
theorem getTimeB_arity (fuel : Nat) (now : Int) (g : Term) (s : Subst)
    (h : g.args.length ≠ 1) : getTimeB fuel now g s = some [] := by
  unfold getTimeB
  rcases hargs : g.args with _ | ⟨a, _ | ⟨b, l⟩⟩
  · rfl
  · exact absurd (by rw [hargs]; rfl) h
  · rfl

/-- `_weekday` with an argument count other than 4 yields no
substitutions. -/
theorem weekdayB_arity (fuel : Nat) (g : Term) (s : Subst)
    (h : g.args.length ≠ 4) : weekdayB fuel g s = some [] := by
  unfold weekdayB
  rcases hargs : g.args with _ | ⟨a, _ | ⟨b, _ | ⟨c, _ | ⟨d, _ | ⟨e, l⟩⟩⟩⟩⟩
  · rfl
  · rfl
  · rfl
  · rfl
  · exact absurd (by rw [hargs]; rfl) h
  · rfl

/-- Claim C10: (i) resolving a goal whose functor name is a built-in name
never consults the KB — the result for a single such goal is the same for
every knowledge base, whatever the goal's arity; (ii) a built-in called at
an arity its implementation does not accept — or `format_time` at any
arity — produces no substitutions; and (iii) a built-in goal producing no
substitutions yields zero solutions. -/
theorem C10_builtin_dispatch :
    (∀ (now : Int) (n : Nat) (kb kb' : KB) (g : Term) (s : Subst) (k : Nat)
        (C? : Option ConstraintStore),
        is_builtin g = true →
        sldF now (n + 1) kb [g] (some s) k C? =
          sldF now (n + 1) kb' [g] (some s) k C?) ∧
    (∀ (fuel : Nat) (now : Int) (g : Term) (s : Subst),
        ((g.name = "date_time_stamp" ∧ g.args.length ≠ 2) ∨
         (g.name = "stamp_date_time" ∧ g.args.length ≠ 3) ∨
         (g.name = "get_time" ∧ g.args.length ≠ 1) ∨
         g.name = "format_time" ∨
         (g.name = "current_time" ∧ g.args.length ≠ 1) ∨
         (g.name = "weekday" ∧ g.args.length ≠ 4)) →
        evaluate_builtin fuel now g s = some []) ∧
    (∀ (now : Int) (n : Nat) (kb : KB) (g : Term) (s : Subst) (k : Nat)
        (C? : Option ConstraintStore),
        is_builtin g = true → evaluate_builtin (n + 1) now g s = some [] →
        sldF now (n + 1) kb [g] (some s) k C? = some []) := by
  refine ⟨?_, ?_, ?_⟩
  · intro now n kb kb' g s k C? hbi
    have hname : g.name ∈ builtinNames := by
      simpa [is_builtin] using hbi
    have hneg : ¬(g.name = "\\+" ∧ g.args.length = 1) := fun hc =>
      builtinNotNeg g.name hname hc.1
    simp [sldF, hneg, hbi, sldNilKBIndep now n kb kb']
  · intro fuel now g s h
    rcases h with ⟨hn, ha⟩ | ⟨hn, ha⟩ | ⟨hn, ha⟩ | hn | ⟨hn, ha⟩ | ⟨hn, ha⟩ <;>
      unfold evaluate_builtin <;> rw [hn] <;> simp
    · exact dateTimeStampB_arity fuel g s ha
    · exact stampDateTimeB_arity fuel g s ha
    · exact getTimeB_arity fuel now g s ha
    · exact getTimeB_arity fuel now g s ha
    · exact weekdayB_arity fuel g s ha
  · intro now n kb g s k C? hbi hevl
    have hname : g.name ∈ builtinNames := by
      simpa [is_builtin] using hbi
    have hneg : ¬(g.name = "\\+" ∧ g.args.length = 1) := fun hc =>
      builtinNotNeg g.name hname hc.1
    simp [sldF, hneg, is_builtin, hname, hevl]
    rfl

/-- Witness: a KB holding a user-defined rule `weekday(A, B).` of the same
name and arity as the goal `weekday(1, 2)` still yields zero solutions —
the goal is dispatched to the built-in, which rejects arity 2. -/
theorem C10_builtin_dispatch_witness :
    KB.get_rules_for_predicate
        ⟨[⟨Term.predicate "weekday" [Term.var "A", Term.var "B"], []⟩]⟩
        (Term.predicate "weekday" [Term.const "1", Term.const "2"]) =
      [⟨Term.predicate "weekday" [Term.var "A", Term.var "B"], []⟩] ∧
    sldF 0 5 ⟨[⟨Term.predicate "weekday" [Term.var "A", Term.var "B"], []⟩]⟩
      [Term.predicate "weekday" [Term.const "1", Term.const "2"]]
      (some emptySubst) 0 none = some [] :=
  ⟨rfl,
   C10_builtin_dispatch.2.2 0 4
     ⟨[⟨Term.predicate "weekday" [Term.var "A", Term.var "B"], []⟩]⟩
     (Term.predicate "weekday" [Term.const "1", Term.const "2"])
     emptySubst 0 none (by decide)
     (C10_builtin_dispatch.2.1 5 0
       (Term.predicate "weekday" [Term.const "1", Term.const "2"])
       emptySubst (by decide))⟩

/-! ## Claim C7 -/

/-- Claim C7, counterexample: renaming `p(_, _).` with counter 0 gives both
occurrences of the anonymous variable the *same* fresh name `__0` — the
collected name set contains `_` once, so one mapping entry serves every
occurrence — refuting the claimed per-occurrence independence. -/
theorem C7_renaming_counterexample :
    rename_rule ⟨Term.predicate "p" [Term.var "_", Term.var "_"], []⟩ 0 =
      (⟨Term.predicate "p" [Term.var "__0", Term.var "__0"], []⟩, 1) :=
  rfl

mutual

/-- Renaming rewrites each variable occurrence to its mapping image
(defaulting to the unrenamed name), position by position. -/
theorem varOccsRenameT (m : List (String × String)) :
    ∀ t : Term, varOccsT (renameMapped m t) =
      (varOccsT t).map fun v => ((m.lookup v).getD v)
  | .const _ => rfl
  | .numericConst _ => rfl
  | .atomConst _ => rfl
  | .stringConst _ => rfl
  | .var v => by
      cases h : m.lookup v <;> simp [renameMapped, varOccsT, h]
  | .predicate n as => by
      simp [renameMapped, varOccsT, varOccsRenameL m as]

theorem varOccsRenameL (m : List (String × String)) :
    ∀ ts : List Term, varOccsList (renameMappedList m ts) =
      (varOccsList ts).map fun v => ((m.lookup v).getD v)
  | [] => rfl
  | t :: ts => by
      simp [renameMappedList, varOccsList, varOccsRenameT m t,
        varOccsRenameL m ts]

end

/-- Every name in the collected list is mapped to itself with a numeric
suffix drawn from the counter window. -/
theorem renameMappingMem :
    ∀ (names : List String) (k : Nat) (v : String), v ∈ names →
      ∃ j, k ≤ j ∧ j < k + names.length ∧
        (renameMapping names k).lookup v = some (v ++ "_" ++ toString j) := by
  intro names
  induction names with
  | nil => intro k v hv; cases hv
  | cons w ws ih =>
      intro k v hv
      by_cases he : v = w
      · subst he
        exact ⟨k, le_refl k, by simp [Nat.lt_add_of_pos_right],
          by simp [renameMapping]⟩
      · have hv' : v ∈ ws := by
          cases hv with
          | head => exact absurd rfl he
          | tail _ h => exact h
        obtain ⟨j, h1, h2, h3⟩ := ih (k + 1) v hv'
        refine ⟨j, by omega, by simp; omega, ?_⟩
        have hbe : (v == w) = false := by simpa using he
        simp [renameMapping, List.lookup, hbe, h3]

/-- Membership is preserved by first-occurrence deduplication. -/
theorem dedupFirstAux (l : List String) :
    ∀ acc x, x ∈ l.foldl
        (fun acc x => if x ∈ acc then acc else acc ++ [x]) acc ↔
      x ∈ acc ∨ x ∈ l := by
  induction l with
  | nil => intro acc x; simp
  | cons v vs ih =>
      intro acc x
      by_cases hv : v ∈ acc
      · simp [List.foldl, hv, ih]
        constructor
        · rintro (h | h)
          · exact Or.inl h
          · exact Or.inr (Or.inr h)
        · rintro (h | h | h)
          · exact Or.inl h
          · exact Or.inl (h ▸ hv)
          · exact Or.inr h
      · simp [List.foldl, hv, ih]
        constructor
        · rintro ((h | h) | h)
          · exact Or.inl h
          · exact Or.inr (Or.inl h)
          · exact Or.inr (Or.inr h)
        · rintro (h | h | h)
          · exact Or.inl (Or.inl h)
          · exact Or.inl (Or.inr h)
          · exact Or.inr h

theorem memDedupFirst (l : List String) (x : String) :
    x ∈ dedupFirst l ↔ x ∈ l := by
  unfold dedupFirst
  rw [dedupFirstAux l [] x]
  simp

/-- Claim C7 as amended: renaming a rule at counter `k` (i) advances the
counter once per distinct variable name, (ii) rewrites every variable
occurrence of head and body through the *single shared* mapping `f` — so a
name occurring in both head and body is renamed consistently, and every
occurrence of `_` receives the same fresh name, not an independent one per
occurrence — and (iii) sends every occurring name `v` to `v ++ "_" ++ j`
for some fresh `j` in the window `[k, k')`. -/
theorem C7_renaming_amended (r : Rule) (k : Nat) :
    (rename_rule r k).2 =
      k + (dedupFirst (varOccsT r.head ++ varOccsList r.body)).length ∧
    varOccsT (rename_rule r k).1.head = (varOccsT r.head).map
      (fun v => ((renameMapping
        (dedupFirst (varOccsT r.head ++ varOccsList r.body)) k).lookup
          v).getD v) ∧
    varOccsList (rename_rule r k).1.body = (varOccsList r.body).map
      (fun v => ((renameMapping
        (dedupFirst (varOccsT r.head ++ varOccsList r.body)) k).lookup
          v).getD v) ∧
    ∀ v, v ∈ varOccsT r.head ++ varOccsList r.body →
      ∃ j, k ≤ j ∧ j < (rename_rule r k).2 ∧
        (((renameMapping
          (dedupFirst (varOccsT r.head ++ varOccsList r.body)) k).lookup
            v).getD v) = v ++ "_" ++ toString j := by
  refine ⟨rfl, varOccsRenameT _ _, varOccsRenameL _ _, ?_⟩
  intro v hv
  have hv' : v ∈ dedupFirst (varOccsT r.head ++ varOccsList r.body) :=
    (memDedupFirst _ v).mpr hv
  obtain ⟨j, h1, h2, h3⟩ := renameMappingMem _ k v hv'
  exact ⟨j, h1, h2, by rw [h3]; rfl⟩

/-- Witness for the amended C7: in `p(X, _) :- q(X, _)` at counter 0, the
occurring name `X` is renamed with a suffix within the counter window. -/
theorem C7_renaming_amended_witness :
    ∃ j, 0 ≤ j ∧
      j < (rename_rule ⟨Term.predicate "p" [Term.var "X", Term.var "_"],
        [Term.predicate "q" [Term.var "X", Term.var "_"]]⟩ 0).2 ∧
      ((renameMapping (dedupFirst
        (varOccsT (Term.predicate "p" [Term.var "X", Term.var "_"]) ++
          varOccsList [Term.predicate "q" [Term.var "X", Term.var "_"]]))
        0).lookup "X").getD "X" = "X" ++ "_" ++ toString j :=
  (C7_renaming_amended
    ⟨Term.predicate "p" [Term.var "X", Term.var "_"],
     [Term.predicate "q" [Term.var "X", Term.var "_"]]⟩ 0).2.2.2 "X"
    (by decide)

/-! ## Claim C9 -/

/-- Claim C9: `retract` leaves `program_rules` untouched and removes from
`asserted_facts` exactly the first rule (in insertion order) whose head
unifies with the pattern's head (`rules_match`), a no-op when none matches;
after `retractall`, no matching rule remains and `program_rules` are again
unchanged. -/
theorem C9_retract_specificity :
    (∀ (st : MiniprologState) (f : String) (target : Rule),
        parse_rule (removeEndingPeriods (pyStrip f)) = some target →
        retract st f = .ok ⟨st.program_rules,
          removeFirstMatch st.asserted_facts target⟩ ∧
        retractall st f = .ok ⟨st.program_rules,
          st.asserted_facts.filter fun r => ¬ rules_match r target⟩) ∧
    (∀ (facts : List Rule) (target : Rule),
        (∀ r ∈ facts, rules_match r target = false) →
        removeFirstMatch facts target = facts) ∧
    (∀ (pre post : List Rule) (r target : Rule),
        (∀ p ∈ pre, rules_match p target = false) →
        rules_match r target = true →
        removeFirstMatch (pre ++ r :: post) target = pre ++ post) ∧
    (∀ (facts : List Rule) (target r : Rule),
        r ∈ facts.filter (fun r => ¬ rules_match r target) →
        rules_match r target = false) := by
  refine ⟨?_, ?_, ?_, ?_⟩
  · intro st f target h
    constructor
    · unfold retract
      simp only [h]
    · unfold retractall
      simp only [h]
  · intro facts target h
    induction facts with
    | nil => rfl
    | cons r rs ih =>
        unfold removeFirstMatch
        rw [h r (by simp)]
        simp
        exact ih fun x hx => h x (by simp [hx])
  · intro pre post r target hpre hr
    induction pre with
    | nil =>
        simp only [List.nil_append]
        simp [removeFirstMatch, hr]
    | cons p pre' ih =>
        have htail := ih fun x hx => hpre x (by simp [hx])
        simp only [List.cons_append]
        simp [removeFirstMatch, hpre p (by simp), htail]
  · intro facts target r hr
    simp only [List.mem_filter, decide_eq_true_eq] at hr
    simpa using hr.2

/-- Witness for C9: asserting three `likes` facts, `retract("likes(john,
_)")` removes only the first john-fact and `retractall` removes both,
leaving `likes(mary, pasta)`; `program_rules` stay empty. -/
theorem C9_retract_specificity_witness :
    retract ⟨[], [⟨Term.predicate "likes" [Term.const "john", Term.const "pizza"], []⟩,
        ⟨Term.predicate "likes" [Term.const "mary", Term.const "pasta"], []⟩,
        ⟨Term.predicate "likes" [Term.const "john", Term.const "burgers"], []⟩]⟩
      "likes(john, _)" =
      .ok ⟨[], [⟨Term.predicate "likes" [Term.const "mary", Term.const "pasta"], []⟩,
        ⟨Term.predicate "likes" [Term.const "john", Term.const "burgers"], []⟩]⟩ ∧
    retractall ⟨[], [⟨Term.predicate "likes" [Term.const "john", Term.const "pizza"], []⟩,
        ⟨Term.predicate "likes" [Term.const "mary", Term.const "pasta"], []⟩,
        ⟨Term.predicate "likes" [Term.const "john", Term.const "burgers"], []⟩]⟩
      "likes(john, _)" =
      .ok ⟨[], [⟨Term.predicate "likes" [Term.const "mary", Term.const "pasta"], []⟩]⟩ :=
  ⟨((C9_retract_specificity.1
      ⟨[], [⟨Term.predicate "likes" [Term.const "john", Term.const "pizza"], []⟩,
        ⟨Term.predicate "likes" [Term.const "mary", Term.const "pasta"], []⟩,
        ⟨Term.predicate "likes" [Term.const "john", Term.const "burgers"], []⟩]⟩
      "likes(john, _)"
      ⟨Term.predicate "likes" [Term.const "john", Term.var "_"], []⟩ rfl).1).trans
    rfl,
   ((C9_retract_specificity.1
      ⟨[], [⟨Term.predicate "likes" [Term.const "john", Term.const "pizza"], []⟩,
        ⟨Term.predicate "likes" [Term.const "mary", Term.const "pasta"], []⟩,
        ⟨Term.predicate "likes" [Term.const "john", Term.const "burgers"], []⟩]⟩
      "likes(john, _)"
      ⟨Term.predicate "likes" [Term.const "john", Term.var "_"], []⟩ rfl).2).trans
    rfl⟩

/-! ## Claim C8 -/

/-- Claim C8, code bug: the parser stores every constant as a base-class
`Const` (see C5), but `Const` is not a member of the `Predicate.args`
union, so `model_dump` serializes such an argument through the `Term`
member — only the base field `type` survives and the `name` is dropped.
Distinct knowledge bases built by the public operations therefore produce
identical save documents, so no loader can restore both of them: the
round trip `load(save(x)) ≡ x` fails with outright data loss, not a mere
representation change. -/
theorem C8_roundtrip_code_bug :
    dumpTerm (Term.const "bob") = Json.jobj [("type", Json.jstr "const")] ∧
    (⟨parse_kb "p(bob).", []⟩ : MiniprologState) ≠
      ⟨parse_kb "p(alice).", []⟩ ∧
    save ⟨parse_kb "p(bob).", []⟩ true true =
      save ⟨parse_kb "p(alice).", []⟩ true true :=
  ⟨rfl, by decide, rfl⟩

end MiniProlog
